import Mathlib

/-!
Verification of the runraisenext decision engine.

This file is a shallow embedding of src/runraisenext.py: windows and window
specs become finite attribute tables, the pickled MRU list becomes an explicit
storage value, Python exceptions become Except values, and the side effects of
one invocation (command run, focus calls, list saved) are recorded in an
Effects record. Each definition mirrors the Python function of the same name.
-/

namespace Runraisenext

/-- A window: an opaque identifier plus a table of named string attributes
(id, desktop, pid, wm_class, machine, title, ...). Mirrors wmctrl.Window as
consumed by getattr in matches. -/
structure Window where
  wid : Nat
  attrs : List (String × String)
deriving DecidableEq, Repr

/-- A window spec: a table of attribute names to required substring values,
possibly including a command entry. Mirrors the Python dict. -/
structure WSpec where
  pairs : List (String × String)
deriving DecidableEq, Repr

/-- Python str.lower, character by character (ASCII). -/
def pyLower (s : String) : String :=
  String.mk (s.data.map Char.toLower)

/-- Helper for pySubstr: does the first list start the second one. -/
def pyStarts : List Char → List Char → Bool
  | [], _ => true
  | _ :: _, [] => false
  | c :: n, d :: h => c == d && pyStarts n h

/-- Python substring containment a in b, over character lists. -/
def pySubstr (needle : List Char) : List Char → Bool
  | [] => pyStarts needle []
  | c :: t => pyStarts needle (c :: t) || pySubstr needle t

/-- Python needle in hay, on strings. -/
def strIn (needle hay : String) : Bool :=
  pySubstr needle.data hay.data

/-- Python getattr(window, key, ''): the window's attribute value, or the
empty string when the window has no such attribute. -/
def getattrD (w : Window) (key : String) : String :=
  (List.lookup key w.attrs).getD ""

/-- Embedding of matches (src/runraisenext.py lines 108-145); the Python
name is a Lean keyword, hence the suffix. Every key of the spec except
command must have its case-folded value occur as a substring of the
case-folded window attribute value, with a missing attribute read as the
empty string. -/
def matchesSpec (w : Window) (spec : WSpec) : Bool :=
  spec.pairs.all fun kv =>
    kv.1 == "command" || strIn (pyLower kv.2) (pyLower (getattrD w kv.1))

/-- Embedding of run_window_spec_command (lines 18-30): returns the command
string passed to run_function, if any. A missing command, or an empty one
(falsy in Python), runs nothing. -/
def run_window_spec_command (spec : WSpec) : Option String :=
  match List.lookup "command" spec.pairs with
  | some c => if c = "" then none else some c
  | none => none

/-- Embedding of the key test at lines 198-203: does the spec contain any of
the six matching-relevant keys. -/
def hasMatchingRelevantKey (spec : WSpec) : Bool :=
  (List.lookup "id" spec.pairs).isSome ||
  (List.lookup "desktop" spec.pairs).isSome ||
  (List.lookup "pid" spec.pairs).isSome ||
  (List.lookup "wm_class" spec.pairs).isSome ||
  (List.lookup "machine" spec.pairs).isSome ||
  (List.lookup "title" spec.pairs).isSome

/-- The persisted pickle file: absent, unreadable content, or a stored list. -/
inductive Storage where
  | absent : Storage
  | corrupt : Storage
  | ok : List Window → Storage
deriving DecidableEq, Repr

/-- The open call at line 66: raises IOError when the file is absent. -/
def open_mru_file : Storage → Except String Storage
  | .absent => .error "IOError"
  | s => .ok s

/-- pickle.load at line 68: raises UnpicklingError (not an IOError) on
content that fails to deserialize. -/
def pickle_load : Storage → Except String (List Window)
  | .absent => .error "IOError"
  | .corrupt => .error "UnpicklingError"
  | .ok l => .ok l

/-- Embedding of the load part of windows (lines 66-71). The with-open call
sits outside the try block, so its IOError is not caught; the except IOError
clause guards only pickle.load. -/
def load_mru (s : Storage) : Except String (List Window) :=
  match open_mru_file s with
  | .error e => .error e
  | .ok handle =>
    match pickle_load handle with
    | .ok l => .ok l
    | .error e => if e = "IOError" then .ok [] else .error e

/-- The loop at lines 80-82: for each live window not already in the list,
insert it at index 0. -/
def insertNew (acc : List Window) : List Window → List Window
  | [] => acc
  | w :: rest => insertNew (if w ∈ acc then acc else w :: acc) rest

/-- Embedding of the reconcile part of windows (lines 74-84): drop stored
windows that are no longer live, then prepend each live window not already
present, scanning the live list front to back. -/
def reconcile (pickled current : List Window) : List Window :=
  insertNew (pickled.filter fun w => decide (w ∈ current)) current

/-- Embedding of update_pickled_window_list (lines 87-105), the promote+save
step: assert membership, remove the first occurrence, assert the window is
gone (no duplicates), insert at index 0. Returns the list that gets pickled,
or the uncaught AssertionError. -/
def update_pickled_window_list (open_windows : List Window)
    (newly_focused_window : Window) : Except String (List Window) :=
  if newly_focused_window ∈ open_windows then
    let removed := open_windows.erase newly_focused_window
    if newly_focused_window ∈ removed then
      .error "AssertionError"
    else
      .ok (newly_focused_window :: removed)
  else
    .error "AssertionError"

/-- The loop at lines 162-167: collect open windows from the front while they
match, stop at the first one that does not. -/
def visitedLoop (matching_windows : List Window) : List Window → List Window
  | [] => []
  | w :: rest =>
    if w ∈ matching_windows then w :: visitedLoop matching_windows rest
    else []

/-- Embedding of _unvisited_windows (lines 148-168): the matching windows not
in the visited prefix of the open-window list. -/
def unvisited_windows (matching_windows open_windows : List Window) :
    List Window :=
  let visited_windows := visitedLoop matching_windows open_windows
  matching_windows.filter fun w => decide (w ∉ visited_windows)

/-- Which branch of runraisenext ran: the action vocabulary of the spec. -/
inductive Action where
  | launch : Action
  | focus : Window → Action
  | noop : Action
  | advance : Window → Action
deriving DecidableEq, Repr

/-- The observable effects of one runraisenext invocation: the branch taken,
the command passed to run_function (if any), the windows passed to
focus_window_function in order, the list pickled to disk (if any), and any
uncaught exception. -/
structure Effects where
  action : Option Action
  ran : Option String
  focusCalls : List Window
  saved : Option (List Window)
  err : Option String
deriving DecidableEq, Repr

/-- Effects of the three launch branches: run the spec command, touch
nothing else. -/
def launchEffects (spec : WSpec) : Effects :=
  { action := some .launch, ran := run_window_spec_command spec,
    focusCalls := [], saved := none, err := none }

/-- Effects of the pass branch at lines 222-224. -/
def noopEffects : Effects :=
  { action := some .noop, ran := none, focusCalls := [], saved := none,
    err := none }

/-- Effects of an unreachable exception raised before any side effect. -/
def errorEffects (e : String) : Effects :=
  { action := none, ran := none, focusCalls := [], saved := none,
    err := some e }

/-- The focus-then-update pattern at lines 220-221 and 230-235: the focus
call happens first, then update_pickled_window_list runs and may raise. -/
def focusPromote (a : Action) (w : Window) (open_windows : List Window) :
    Effects :=
  match update_pickled_window_list open_windows w with
  | .ok saved =>
    { action := some a, ran := none, focusCalls := [w], saved := some saved,
      err := none }
  | .error e =>
    { action := some a, ran := none, focusCalls := [w], saved := none,
      err := some e }

/-- Python membership test focused_window in matching_windows, where the
focused window may be None. -/
def focusedIn (fw : Option Window) (l : List Window) : Bool :=
  match fw with
  | none => false
  | some w => decide (w ∈ l)

/-- The branches of runraisenext from line 215 on, once matching_windows has
been computed: launch when nothing matches, focus the first matching window
when the focused one does not match, do nothing when the single matching
window is focused, otherwise advance through the cycle. -/
def selectorStep (open_windows : List Window) (focused_window : Option Window)
    (spec : WSpec) (matching_windows : List Window) : Effects :=
  if matching_windows = [] then
    launchEffects spec
  else if focusedIn focused_window matching_windows = false then
    match matching_windows with
    | [] => errorEffects "IndexError"
    | m0 :: _ => focusPromote (.focus m0) m0 open_windows
  else if matching_windows.length = 1 &&
      focusedIn focused_window matching_windows then
    noopEffects
  else if !(focusedIn focused_window matching_windows &&
      decide (1 < matching_windows.length)) then
    errorEffects "AssertionError"
  else
    match unvisited_windows matching_windows open_windows with
    | u :: _ => focusPromote (.advance u) u open_windows
    | [] =>
      match matching_windows.getLast? with
      | some m => focusPromote (.advance m) m open_windows
      | none => errorEffects "IndexError"

/-- Embedding of runraisenext (lines 171-235), branch for branch: the two
early launch returns, then the computation of matching_windows at line 212
feeding the remaining branches. -/
def runraisenext (spec : WSpec) (open_windows : List Window)
    (focused_window : Option Window) : Effects :=
  if hasMatchingRelevantKey spec = false then
    launchEffects spec
  else if open_windows = [] then
    launchEffects spec
  else
    selectorStep open_windows focused_window spec
      (open_windows.filter fun w => matchesSpec w spec)

/-- The ADVANCE target as claim C1 words it: the visited prefix is the
longest prefix of the ordered window list whose elements all belong to the
matching windows (takeWhile); unvisited is the matching windows not in that
prefix, in matching order; the target is the head of unvisited when it is
non-empty, and the last matching window otherwise. -/
def advanceTargetSpec (matching_windows open_windows : List Window) :
    Option Window :=
  match matching_windows.filter (fun w =>
      decide (w ∉ open_windows.takeWhile fun v =>
        decide (v ∈ matching_windows))) with
  | u :: _ => some u
  | [] => matching_windows.getLast?

/-- The matcher as the specification words it: for every non-command key the
window must have the attribute, and the case-folded spec value must occur in
the case-folded attribute value. Written for comparison with matchesSpec,
which reads a missing attribute as the empty string. -/
def matchesClaim (w : Window) (spec : WSpec) : Bool :=
  spec.pairs.all fun kv =>
    kv.1 == "command" ||
      ((List.lookup kv.1 w.attrs).isSome &&
        strIn (pyLower kv.2) (pyLower (getattrD w kv.1)))

/-- Concrete windows for counterexamples and witnesses. -/
def winA : Window := ⟨0, []⟩

def winB : Window := ⟨1, []⟩

def winC : Window := ⟨2, [("title", "Firefox Browser")]⟩

/-- C4: the claim is right and the code is wrong. The open call at line 66
sits outside the try/except IOError block, so a missing pickle file raises
an uncaught IOError, and a file that fails to unpickle raises an uncaught
UnpicklingError (which is not an IOError); only a readable pickle yields a
list. The code's own comment at line 70 documents the intent to treat the
missing file as an empty list. -/
theorem load_mru_raises :
    load_mru Storage.absent = Except.error "IOError" ∧
    load_mru Storage.corrupt = Except.error "UnpicklingError" ∧
    load_mru (Storage.ok [winA]) = Except.ok [winA] :=
  ⟨rfl, rfl, rfl⟩

/-- C5 counterexample: a window with no title attribute matches the spec
whose title value is the empty string, because getattr defaults the missing
attribute to the empty string; the claim's reading, which requires the
window to have the attribute, rejects it. -/
theorem matches_missing_attribute_cx :
    matchesSpec winA ⟨[("title", "")]⟩ = true ∧
    List.lookup "title" winA.attrs = none ∧
    matchesClaim winA ⟨[("title", "")]⟩ = false :=
  ⟨rfl, rfl, rfl⟩

/-- C5 amended: matchesSpec is true iff for every non-command key the
case-folded spec value is a substring of the case-folded window attribute
value, a missing attribute being read as the empty string; and the empty
spec matches every window. -/
theorem matchesSpec_characterization (w : Window) (spec : WSpec) :
    (matchesSpec w spec = true ↔
      ∀ kv ∈ spec.pairs, kv.1 ≠ "command" →
        strIn (pyLower kv.2) (pyLower (getattrD w kv.1)) = true) ∧
    matchesSpec w ⟨[]⟩ = true := by
  constructor
  · simp only [matchesSpec, List.all_eq_true, Bool.or_eq_true, beq_iff_eq]
    constructor
    · intro h kv hkv hne
      exact (h kv hkv).resolve_left hne
    · intro h kv hkv
      by_cases hc : kv.1 = "command"
      · exact Or.inl hc
      · exact Or.inr (h kv hkv hc)
  · rfl

/-- C7 counterexample: with the window occurring twice in the list, the
second assertion of update_pickled_window_list fires and no reordered list
is returned, although the membership precondition holds. -/
theorem promote_duplicate_cx :
    winA ∈ [winA, winA] ∧
    update_pickled_window_list [winA, winA] winA =
      Except.error "AssertionError" :=
  ⟨by decide, rfl⟩

/-- C7 amended: for every list in which the window occurs exactly once,
update_pickled_window_list removes that occurrence and reinserts it at index
0; the other elements keep their relative order (the tail is a sublist of
the input) and the length is unchanged. -/
theorem promote_moves_to_front (l : List Window) (w : Window)
    (h : l.count w = 1) :
    update_pickled_window_list l w = Except.ok (w :: l.erase w) ∧
    (l.erase w).Sublist l ∧
    (w :: l.erase w).length = l.length := by
  have hmem : w ∈ l := by
    by_contra hn
    have h0 := List.count_eq_zero.mpr hn
    omega
  have hnot : w ∉ l.erase w := by
    have hc : (l.erase w).count w = l.count w - 1 := List.count_erase_self w l
    rw [h] at hc
    exact List.count_eq_zero.mp hc
  have hlen : (l.erase w).length = l.length - 1 := List.length_erase_of_mem hmem
  have hpos : 0 < l.length := List.length_pos.mpr (by rintro rfl; simp at hmem)
  refine ⟨?_, List.erase_sublist w l, ?_⟩
  · simp only [update_pickled_window_list, if_pos hmem, if_neg hnot]
  · simp only [List.length_cons, hlen]
    omega

/-- C7 witness. -/
theorem promote_moves_to_front_witness :
    [winA, winB].count winA = 1 ∧
    (update_pickled_window_list [winA, winB] winA =
        Except.ok (winA :: [winA, winB].erase winA) ∧
      ([winA, winB].erase winA).Sublist [winA, winB] ∧
      (winA :: [winA, winB].erase winA).length = [winA, winB].length) :=
  ⟨by decide, promote_moves_to_front [winA, winB] winA (by decide)⟩

/-- Membership in the insertion loop: an element ends up in the result iff
it was in the accumulator or in the scanned live list. -/
theorem mem_insertNew (x : Window) :
    ∀ (cur acc : List Window), x ∈ insertNew acc cur ↔ x ∈ acc ∨ x ∈ cur := by
  intro cur
  induction cur with
  | nil => intro acc; simp [insertNew]
  | cons w rest ih =>
    intro acc
    by_cases hw : w ∈ acc
    · rw [insertNew, if_pos hw, ih]
      simp only [List.mem_cons]
      constructor
      · rintro (h | h)
        · exact Or.inl h
        · exact Or.inr (Or.inr h)
      · rintro (h | rfl | h)
        · exact Or.inl h
        · exact Or.inl hw
        · exact Or.inr h
    · rw [insertNew, if_neg hw, ih]
      simp only [List.mem_cons]
      tauto

/-- The insertion loop adds nothing when every live window is already in the
accumulator. -/
theorem insertNew_eq_self :
    ∀ (cur acc : List Window), (∀ w ∈ cur, w ∈ acc) → insertNew acc cur = acc := by
  intro cur
  induction cur with
  | nil => intro acc _; rfl
  | cons w rest ih =>
    intro acc h
    rw [insertNew, if_pos (h w (List.mem_cons_self w rest))]
    exact ih acc fun v hv => h v (List.mem_cons_of_mem w hv)

/-- The insertion loop preserves the no-duplicates invariant. -/
theorem insertNew_nodup :
    ∀ (cur acc : List Window), acc.Nodup → (insertNew acc cur).Nodup := by
  intro cur
  induction cur with
  | nil => intro acc h; exact h
  | cons w rest ih =>
    intro acc h
    by_cases hw : w ∈ acc
    · rw [insertNew, if_pos hw]; exact ih acc h
    · rw [insertNew, if_neg hw]
      exact ih (w :: acc) (List.nodup_cons.mpr ⟨hw, h⟩)

/-- Shape of the insertion loop on a duplicate-free live list: the live
windows missing from the accumulator are prepended in reverse scan order. -/
theorem insertNew_eq_append :
    ∀ (cur acc : List Window), cur.Nodup →
      insertNew acc cur =
        (cur.filter fun w => decide (w ∉ acc)).reverse ++ acc := by
  intro cur
  induction cur with
  | nil => intro acc _; simp [insertNew]
  | cons w rest ih =>
    intro acc hnd
    have hwrest : w ∉ rest := (List.nodup_cons.mp hnd).1
    have hrest : rest.Nodup := (List.nodup_cons.mp hnd).2
    by_cases hw : w ∈ acc
    · rw [insertNew, if_pos hw, ih acc hrest]
      have : (List.filter (fun v => decide (v ∉ acc)) (w :: rest)) =
          rest.filter fun v => decide (v ∉ acc) := by
        rw [List.filter_cons]
        simp [hw]
      rw [this]
    · rw [insertNew, if_neg hw, ih (w :: acc) hrest]
      have hfil : (rest.filter fun v => decide (v ∉ w :: acc)) =
          rest.filter fun v => decide (v ∉ acc) := by
        apply List.filter_congr
        intro x hx
        have hxw : x ≠ w := fun hxw => hwrest (hxw ▸ hx)
        simp [List.mem_cons, hxw]
      have hfil2 : (List.filter (fun v => decide (v ∉ acc)) (w :: rest)) =
          w :: rest.filter fun v => decide (v ∉ acc) := by
        rw [List.filter_cons]
        simp [hw]
      rw [hfil, hfil2, List.reverse_cons, List.append_assoc]
      rfl

/-- A window is in the reconciled list iff it is live: stored windows that
are no longer live are dropped, and every live window is kept or inserted. -/
theorem mem_reconcile (x : Window) (stored live : List Window) :
    x ∈ reconcile stored live ↔ x ∈ live := by
  unfold reconcile
  rw [mem_insertNew]
  constructor
  · rintro (h | h)
    · exact of_decide_eq_true (List.mem_filter.mp h).2
    · exact h
  · exact Or.inr

/-- C3 counterexample: with empty stored state and live list [winA, winB],
reconciliation returns the newly-opened windows in reverse live order, not
in live order as the claim states. -/
theorem reconcile_ordering_cx :
    reconcile [] [winA, winB] = [winB, winA] ∧
    reconcile [] [winA, winB] ≠ [winA, winB] :=
  ⟨by decide, by decide⟩

/-- C3 amended: reconcile first drops stored entries not present in the live
list; for a duplicate-free live list the result is the newly-opened windows
in reverse live-list order, followed by the previously-known windows in
their prior relative MRU order. -/
theorem reconcile_ordering (stored live : List Window) (h : live.Nodup) :
    reconcile stored live =
      (live.filter fun w =>
        decide (w ∉ stored.filter fun v => decide (v ∈ live))).reverse ++
      stored.filter fun v => decide (v ∈ live) := by
  unfold reconcile
  exact insertNew_eq_append live _ h

/-- C3 witness. -/
theorem reconcile_ordering_witness :
    List.Nodup [winB, winA] ∧
    reconcile [winA, winC] [winB, winA] =
      ([winB, winA].filter fun w =>
        decide (w ∉ [winA, winC].filter fun v =>
          decide (v ∈ [winB, winA]))).reverse ++
      [winA, winC].filter fun v => decide (v ∈ [winB, winA]) :=
  ⟨by decide, reconcile_ordering [winA, winC] [winB, winA] (by decide)⟩

/-- C8: reconciliation is idempotent. Reconciling an already-reconciled list
against the same live list filters out nothing (every element is live) and
inserts nothing (every live window is already present). -/
theorem reconcile_idempotent (stored live : List Window) :
    reconcile (reconcile stored live) live = reconcile stored live := by
  have hfil : (reconcile stored live).filter (fun w => decide (w ∈ live)) =
      reconcile stored live :=
    List.filter_eq_self.mpr fun a ha =>
      decide_eq_true ((mem_reconcile a stored live).mp ha)
  conv_lhs => rw [reconcile]
  rw [hfil]
  exact insertNew_eq_self live _ fun w hw => (mem_reconcile w stored live).mpr hw

/-- C10: for duplicate-free stored and live lists, the reconciled list
contains exactly the live windows, has no duplicates, and is therefore a
permutation of the live list. -/
theorem reconcile_permutation (stored live : List Window)
    (h1 : stored.Nodup) (h2 : live.Nodup) :
    reconcile stored live ⊆ live ∧ live ⊆ reconcile stored live ∧
    (reconcile stored live).Nodup ∧
    List.Perm (reconcile stored live) live := by
  have hnd : (reconcile stored live).Nodup := by
    unfold reconcile
    exact insertNew_nodup live _ (h1.filter _)
  have hs1 : reconcile stored live ⊆ live := fun x hx =>
    (mem_reconcile x stored live).mp hx
  have hs2 : live ⊆ reconcile stored live := fun x hx =>
    (mem_reconcile x stored live).mpr hx
  exact ⟨hs1, hs2, hnd,
    List.Subperm.antisymm (List.subperm_of_subset hnd hs1)
      (List.subperm_of_subset h2 hs2)⟩

/-- C10 witness. -/
theorem reconcile_permutation_witness :
    (List.Nodup [winA] ∧ List.Nodup [winB, winA]) ∧
    (reconcile [winA] [winB, winA] ⊆ [winB, winA] ∧
      [winB, winA] ⊆ reconcile [winA] [winB, winA] ∧
      (reconcile [winA] [winB, winA]).Nodup ∧
      List.Perm (reconcile [winA] [winB, winA]) [winB, winA]) :=
  ⟨⟨by decide, by decide⟩,
    reconcile_permutation [winA] [winB, winA] (by decide) (by decide)⟩

/-- Concrete specs for counterexamples and witnesses. -/
def specNone : WSpec := ⟨[]⟩

def specCmd : WSpec := ⟨[("command", "firefox")]⟩

def specEmptyCmd : WSpec := ⟨[("command", "")]⟩

def specTitle : WSpec := ⟨[("title", "")]⟩

/-- The focus branch records its action tag whether or not the subsequent
update raises; the focus call happens first in the source. -/
theorem focusPromote_action (a : Action) (w : Window) (l : List Window) :
    (focusPromote a w l).action = some a := by
  unfold focusPromote
  cases update_pickled_window_list l w <;> rfl

/-- The focus branch always issues exactly one focus call, on its target. -/
theorem focusPromote_focusCalls (a : Action) (w : Window) (l : List Window) :
    (focusPromote a w l).focusCalls = [w] := by
  unfold focusPromote
  cases update_pickled_window_list l w <;> rfl

/-- The visited-prefix loop of _unvisited_windows is takeWhile of membership
in the matching windows: the longest prefix of the open-window list whose
elements all match. -/
theorem visitedLoop_eq_takeWhile (M : List Window) :
    ∀ l : List Window,
      visitedLoop M l = l.takeWhile fun w => decide (w ∈ M) := by
  intro l
  induction l with
  | nil => rfl
  | cons w rest ih =>
    by_cases hw : w ∈ M
    · simp only [visitedLoop, if_pos hw, ih, List.takeWhile_cons]
      simp [hw]
    · simp only [visitedLoop, if_neg hw, List.takeWhile_cons]
      simp [hw]

/-- C6 counterexample: a spec whose command entry is the empty string has a
present command, yet nothing is run (the empty string is falsy in Python). -/
theorem launch_empty_command_cx :
    List.lookup "command" specEmptyCmd.pairs = some "" ∧
    (runraisenext specEmptyCmd [] none).ran = none :=
  ⟨rfl, rfl⟩

/-- C6 amended: for every spec with no matching-relevant key the decision is
LAUNCH: no focus call, no save, and the command is run exactly when it is
present and non-empty. -/
theorem launch_decision (spec : WSpec) (open_windows : List Window)
    (fw : Option Window) (h : hasMatchingRelevantKey spec = false) :
    (runraisenext spec open_windows fw).action = some Action.launch ∧
    (runraisenext spec open_windows fw).focusCalls = [] ∧
    (runraisenext spec open_windows fw).saved = none ∧
    ∀ c : String, ((runraisenext spec open_windows fw).ran = some c ↔
      List.lookup "command" spec.pairs = some c ∧ c ≠ "") := by
  have hr : runraisenext spec open_windows fw = launchEffects spec := by
    unfold runraisenext
    rw [if_pos h]
  rw [hr]
  refine ⟨rfl, rfl, rfl, ?_⟩
  intro c
  simp only [launchEffects, run_window_spec_command]
  cases hc : List.lookup "command" spec.pairs with
  | none => simp
  | some d =>
    by_cases hd : d = ""
    · subst hd
      simp
      exact fun h2 => h2.symm
    · simp only [if_neg hd, Option.some.injEq]
      constructor
      · rintro rfl
        exact ⟨rfl, hd⟩
      · rintro ⟨h2, _⟩
        exact h2

/-- C6 witness. -/
theorem launch_decision_witness :
    hasMatchingRelevantKey specCmd = false ∧
    ((runraisenext specCmd [] none).action = some Action.launch ∧
     (runraisenext specCmd [] none).focusCalls = [] ∧
     (runraisenext specCmd [] none).saved = none ∧
     ∀ c : String, ((runraisenext specCmd [] none).ran = some c ↔
       List.lookup "command" specCmd.pairs = some c ∧ c ≠ "")) :=
  ⟨by decide, launch_decision specCmd [] none (by decide)⟩

/-- C2: when the spec has a matching-relevant key, some window matches, and
the focused window is not among the matching windows, the decision is FOCUS
of the first matching window in MRU order. -/
theorem focus_decision (spec : WSpec) (open_windows : List Window)
    (fw : Option Window) (m0 : Window) (rest : List Window)
    (hrel : hasMatchingRelevantKey spec = true)
    (hm : open_windows.filter (fun w => matchesSpec w spec) = m0 :: rest)
    (hf : focusedIn fw (m0 :: rest) = false) :
    (runraisenext spec open_windows fw).action = some (Action.focus m0) ∧
    (runraisenext spec open_windows fw).focusCalls = [m0] := by
  have hm0 : m0 ∈ open_windows := by
    have h1 : m0 ∈ open_windows.filter fun w => matchesSpec w spec := by
      rw [hm]
      exact List.mem_cons_self _ _
    exact (List.mem_filter.mp h1).1
  have hopen : ¬ open_windows = [] := by
    rintro rfl
    simp at hm0
  have hr : runraisenext spec open_windows fw =
      selectorStep open_windows fw spec (m0 :: rest) := by
    unfold runraisenext
    rw [if_neg (by rw [hrel]; simp), if_neg hopen, hm]
  have hstep : selectorStep open_windows fw spec (m0 :: rest) =
      focusPromote (.focus m0) m0 open_windows := by
    unfold selectorStep
    rw [if_neg (List.cons_ne_nil m0 rest), if_pos hf]
  rw [hr, hstep]
  exact ⟨focusPromote_action _ _ _, focusPromote_focusCalls _ _ _⟩

/-- C2 witness. -/
theorem focus_decision_witness :
    (hasMatchingRelevantKey specTitle = true ∧
     [winA, winB].filter (fun w => matchesSpec w specTitle) = winA :: [winB] ∧
     focusedIn none (winA :: [winB]) = false) ∧
    ((runraisenext specTitle [winA, winB] none).action =
        some (Action.focus winA) ∧
     (runraisenext specTitle [winA, winB] none).focusCalls = [winA]) :=
  ⟨⟨by decide, by decide, by decide⟩,
   focus_decision specTitle [winA, winB] none winA [winB]
     (by decide) (by decide) (by decide)⟩

/-- C9: when the spec has a matching-relevant key and the focused window is
the only matching window, the decision is NOOP: no command run, no focus
call, and no save of the MRU list. -/
theorem noop_decision (spec : WSpec) (open_windows : List Window) (f : Window)
    (hrel : hasMatchingRelevantKey spec = true)
    (hm : open_windows.filter (fun w => matchesSpec w spec) = [f]) :
    (runraisenext spec open_windows (some f)).action = some Action.noop ∧
    (runraisenext spec open_windows (some f)).ran = none ∧
    (runraisenext spec open_windows (some f)).focusCalls = [] ∧
    (runraisenext spec open_windows (some f)).saved = none := by
  have hf : f ∈ open_windows := by
    have h1 : f ∈ open_windows.filter fun w => matchesSpec w spec := by
      rw [hm]
      exact List.mem_cons_self _ _
    exact (List.mem_filter.mp h1).1
  have hopen : ¬ open_windows = [] := by
    rintro rfl
    simp at hf
  have hfin : focusedIn (some f) [f] = true := by
    simp [focusedIn]
  have hr : runraisenext spec open_windows (some f) =
      selectorStep open_windows (some f) spec [f] := by
    unfold runraisenext
    rw [if_neg (by rw [hrel]; simp), if_neg hopen, hm]
  have hstep : selectorStep open_windows (some f) spec [f] = noopEffects := by
    unfold selectorStep
    rw [if_neg (List.cons_ne_nil f []), if_neg (by rw [hfin]; simp),
      if_pos (by simp [hfin])]
  rw [hr, hstep]
  exact ⟨rfl, rfl, rfl, rfl⟩

/-- C9 witness. -/
theorem noop_decision_witness :
    (hasMatchingRelevantKey specTitle = true ∧
     [winC].filter (fun w => matchesSpec w specTitle) = [winC]) ∧
    ((runraisenext specTitle [winC] (some winC)).action = some Action.noop ∧
     (runraisenext specTitle [winC] (some winC)).ran = none ∧
     (runraisenext specTitle [winC] (some winC)).focusCalls = [] ∧
     (runraisenext specTitle [winC] (some winC)).saved = none) :=
  ⟨⟨by decide, by decide⟩,
   noop_decision specTitle [winC] winC (by decide) (by decide)⟩

/-- C1 counterexample: with the empty spec, every window matches, the
focused window is among the two matching windows, and the target the claim
computes is winB; but runraisenext checks its six hard-coded keys before
matching, finds none, and launches instead of advancing. -/
theorem advance_missing_key_cx :
    winA ∈ [winA, winB].filter (fun w => matchesSpec w specNone) ∧
    2 ≤ ([winA, winB].filter fun w => matchesSpec w specNone).length ∧
    advanceTargetSpec ([winA, winB].filter fun w => matchesSpec w specNone)
      [winA, winB] = some winB ∧
    (runraisenext specNone [winA, winB] (some winA)).action =
      some Action.launch ∧
    some Action.launch ≠ some (Action.advance winB) := by
  decide

/-- C1 amended: for every spec with at least one matching-relevant key, when
the focused window is among the matching windows and at least two windows
match, the decision is ADVANCE, and its target is as the claim computes it:
the head of the matching windows outside the visited prefix (the longest
prefix of the ordered windows all of whose elements match), or the last
matching window when that list is empty. -/
theorem advance_decision (spec : WSpec) (open_windows : List Window)
    (f : Window)
    (hrel : hasMatchingRelevantKey spec = true)
    (hmem : f ∈ open_windows.filter fun w => matchesSpec w spec)
    (hlen : 2 ≤ (open_windows.filter fun w => matchesSpec w spec).length) :
    ∃ t, advanceTargetSpec (open_windows.filter fun w => matchesSpec w spec)
        open_windows = some t ∧
      (runraisenext spec open_windows (some f)).action =
        some (Action.advance t) ∧
      (runraisenext spec open_windows (some f)).focusCalls = [t] := by
  have hfopen : f ∈ open_windows := (List.mem_filter.mp hmem).1
  have hopen : ¬ open_windows = [] := by
    rintro rfl
    simp at hfopen
  have hMne : ¬ (open_windows.filter fun w => matchesSpec w spec) = [] := by
    intro h
    rw [h] at hmem
    simp at hmem
  have hfin : focusedIn (some f)
      (open_windows.filter fun w => matchesSpec w spec) = true := by
    simp [focusedIn, hmem]
  have hr : runraisenext spec open_windows (some f) =
      selectorStep open_windows (some f) spec
        (open_windows.filter fun w => matchesSpec w spec) := by
    unfold runraisenext
    rw [if_neg (by rw [hrel]; simp), if_neg hopen]
  have hu : unvisited_windows (open_windows.filter fun w => matchesSpec w spec)
      open_windows =
      (open_windows.filter fun w => matchesSpec w spec).filter fun w =>
        decide (w ∉ open_windows.takeWhile fun v =>
          decide (v ∈ open_windows.filter fun u => matchesSpec u spec)) := by
    unfold unvisited_windows
    rw [visitedLoop_eq_takeWhile]
  have hstep : ∀ t,
      (unvisited_windows (open_windows.filter fun w => matchesSpec w spec)
        open_windows).head? = some t ∨
      ((unvisited_windows (open_windows.filter fun w => matchesSpec w spec)
        open_windows) = [] ∧
        (open_windows.filter fun w => matchesSpec w spec).getLast? = some t) →
      selectorStep open_windows (some f) spec
        (open_windows.filter fun w => matchesSpec w spec) =
        focusPromote (.advance t) t open_windows := by
    intro t ht
    unfold selectorStep
    rw [if_neg hMne, if_neg (by rw [hfin]; simp),
      if_neg (by simp [hfin]; omega), if_neg (by simp [hfin]; omega)]
    rcases ht with h1 | ⟨h1, h2⟩
    · rcases hcase : unvisited_windows
          (open_windows.filter fun w => matchesSpec w spec) open_windows with
        _ | ⟨u, us⟩
      · rw [hcase] at h1
        simp at h1
      · rw [hcase] at h1
        simp at h1
        subst h1
        rfl
    · rw [h1, h2]
  rcases hcase : unvisited_windows
      (open_windows.filter fun w => matchesSpec w spec) open_windows with
    _ | ⟨u, us⟩
  · obtain ⟨m, hm⟩ := Option.isSome_iff_exists.mp
      (List.getLast?_isSome.mpr hMne)
    refine ⟨m, ?_, ?_, ?_⟩
    · unfold advanceTargetSpec
      rw [← hu, hcase]
      exact hm
    · rw [hr, hstep m (Or.inr ⟨hcase, hm⟩)]
      exact focusPromote_action _ _ _
    · rw [hr, hstep m (Or.inr ⟨hcase, hm⟩)]
      exact focusPromote_focusCalls _ _ _
  · refine ⟨u, ?_, ?_, ?_⟩
    · unfold advanceTargetSpec
      rw [← hu, hcase]
    · rw [hr, hstep u (Or.inl (by rw [hcase]; rfl))]
      exact focusPromote_action _ _ _
    · rw [hr, hstep u (Or.inl (by rw [hcase]; rfl))]
      exact focusPromote_focusCalls _ _ _

/-- C1 witness. -/
theorem advance_decision_witness :
    (hasMatchingRelevantKey specTitle = true ∧
     winA ∈ [winA, winB].filter (fun w => matchesSpec w specTitle) ∧
     2 ≤ ([winA, winB].filter fun w => matchesSpec w specTitle).length) ∧
    (∃ t, advanceTargetSpec
        ([winA, winB].filter fun w => matchesSpec w specTitle)
        [winA, winB] = some t ∧
      (runraisenext specTitle [winA, winB] (some winA)).action =
        some (Action.advance t) ∧
      (runraisenext specTitle [winA, winB] (some winA)).focusCalls = [t]) :=
  ⟨⟨by decide, by decide, by decide⟩,
   advance_decision specTitle [winA, winB] winA
     (by decide) (by decide) (by decide)⟩

end Runraisenext
